import Mathlib

/-!
Shallow embedding of the core of the personal-finance chatbot
(`src/backend/utils.py` and `src/api_server.py`).

Modelling conventions:
* Python `float` values are modelled as exact rationals (`ℚ`); `round(x, 2)`
  is modelled as exact round-half-to-even at two decimals (`pyRound2`).
* Python text is modelled as `List Char`; `str.lower()` as `Char.toLower`
  mapped over the list (ASCII, which covers every keyword in the tables);
  the `in` containment test as list-infix.
* Python exceptions are modelled with `Except`: the only exception the
  embedded code can raise is `ZeroDivisionError` (no function in
  `utils.py` validates its arguments).
-/

/-- The runtime errors the embedded Python code can raise. -/
inductive PyError where
  | zeroDivision
deriving DecidableEq

instance : DecidableEq (Except PyError ℚ) := fun a b =>
  match a, b with
  | .ok x, .ok y =>
    if h : x = y then .isTrue (by rw [h]) else .isFalse (by simp [h])
  | .error .zeroDivision, .error .zeroDivision => .isTrue rfl
  | .ok _, .error _ => .isFalse (by simp)
  | .error _, .ok _ => .isFalse (by simp)

/-- Round a rational to the nearest integer, ties to even — the rounding
used by Python's `round` builtin. -/
def pyRoundInt (q : ℚ) : ℤ :=
  let n := ⌊q⌋
  let r := q - (n : ℚ)
  if r < 1/2 then n
  else if 1/2 < r then n + 1
  else if n % 2 = 0 then n else n + 1

/-- Python `round(x, 2)`: round to two decimal places, ties to even. -/
def pyRound2 (q : ℚ) : ℚ := (pyRoundInt (100 * q) : ℚ) / 100

lemma pyRoundInt_down {q : ℚ} {n : ℤ} (h1 : (n : ℚ) ≤ q)
    (h2 : q < (n : ℚ) + 1/2) : pyRoundInt q = n := by
  have hf : ⌊q⌋ = n := Int.floor_eq_iff.mpr ⟨h1, by linarith⟩
  simp only [pyRoundInt, hf]
  rw [if_pos (by linarith)]

lemma pyRoundInt_up {q : ℚ} {n : ℤ} (h1 : (n : ℚ) - 1/2 < q)
    (h2 : q ≤ (n : ℚ)) : pyRoundInt q = n := by
  rcases eq_or_lt_of_le h2 with heq | hlt
  · have hf : ⌊q⌋ = n := by rw [heq]; exact Int.floor_intCast n
    simp only [pyRoundInt, hf]
    rw [if_pos (by rw [heq]; linarith)]
  · have hf : ⌊q⌋ = n - 1 :=
      Int.floor_eq_iff.mpr ⟨by push_cast; linarith, by push_cast; linarith⟩
    simp only [pyRoundInt, hf]
    rw [if_neg (by push_cast; linarith), if_pos (by push_cast; linarith)]
    omega

lemma pyRoundInt_int (n : ℤ) : pyRoundInt (n : ℚ) = n :=
  pyRoundInt_down le_rfl (by linarith)

lemma pyRound2_eq {q : ℚ} {n : ℤ} (h : pyRoundInt (100 * q) = n) :
    pyRound2 q = (n : ℚ) / 100 := by
  simp [pyRound2, h]

/-- Model of `FinanceUtils.calculate_compound_interest` in
`src/backend/utils.py`:
`amount = principal * (1 + rate / compound_frequency) ** (compound_frequency * time)`,
then `round(amount, 2)`.  The Python code performs no argument validation:
the only possible failure is `ZeroDivisionError`, either from `rate / 0`
or from a zero base raised to a negative power.  In the source
`compound_frequency` defaults to `12`; callers here pass it explicitly. -/
def calculate_compound_interest (principal rate : ℚ) (time : ℤ)
    (compound_frequency : ℤ) : Except PyError ℚ :=
  if compound_frequency = 0 then .error .zeroDivision
  else
    let base := 1 + rate / (compound_frequency : ℚ)
    let e := compound_frequency * time
    if base = 0 ∧ e < 0 then .error .zeroDivision
    else .ok (pyRound2 (principal * base ^ e))

/-- Model of `FinanceUtils.calculate_monthly_payment` in
`src/backend/utils.py`:
`monthly_rate = annual_rate / 12`; `num_payments = years * 12`; the
zero-rate branch returns `loan_amount / num_payments` (unrounded, raising
`ZeroDivisionError` when `num_payments` is zero); otherwise the standard
amortization formula rounded to 2 decimals (raising `ZeroDivisionError`
when the denominator `(1 + monthly_rate) ** num_payments - 1` is zero or
when a zero base is raised to a negative power).  No argument
validation. -/
def calculate_monthly_payment (loan_amount annual_rate : ℚ) (years : ℤ) :
    Except PyError ℚ :=
  let monthly_rate := annual_rate / 12
  let num_payments := years * 12
  if monthly_rate = 0 then
    if num_payments = 0 then .error .zeroDivision
    else .ok (loan_amount / (num_payments : ℚ))
  else if (1 + monthly_rate) = 0 ∧ num_payments < 0 then .error .zeroDivision
  else if (1 + monthly_rate) ^ num_payments - 1 = 0 then .error .zeroDivision
  else .ok (pyRound2 (loan_amount *
      (monthly_rate * (1 + monthly_rate) ^ num_payments) /
      ((1 + monthly_rate) ^ num_payments - 1)))

example : calculate_monthly_payment 10000 (1/20) 5 = .ok (18871/100) := by
  simp only [calculate_monthly_payment]
  rw [if_neg (by norm_num), if_neg (by norm_num), if_neg (by norm_num)]
  rw [pyRound2_eq (@pyRoundInt_down _ 18871 (by norm_num) (by norm_num))]
  norm_num

/-- C4: for all loan amounts, nonnegative annual rates, and years with
`years * 12 > 0`, `calculate_monthly_payment` returns
`loan_amount / (years * 12)` when the monthly rate is zero and otherwise
the standard amortization formula rounded to two decimals; in particular
`calculate_monthly_payment 10000 (1/20) 5 = 188.71`. -/
theorem C4_amortized_payment_formula :
    (∀ (loan_amount annual_rate : ℚ) (years : ℤ), 0 ≤ annual_rate →
      0 < years * 12 →
      calculate_monthly_payment loan_amount annual_rate years =
        if annual_rate / 12 = 0 then
          Except.ok (loan_amount / ((years * 12 : ℤ) : ℚ))
        else
          Except.ok (pyRound2 (loan_amount *
            ((annual_rate / 12) * (1 + annual_rate / 12) ^ (years * 12)) /
            ((1 + annual_rate / 12) ^ (years * 12) - 1)))) ∧
    calculate_monthly_payment 10000 (1/20) 5 = Except.ok (18871/100) := by
  constructor
  · intro loan rate years h0 hn
    by_cases hm : rate / 12 = 0
    · simp only [calculate_monthly_payment]
      rw [if_pos hm, if_neg (by omega), if_pos hm]
    · have hmpos : 0 < rate / 12 :=
        lt_of_le_of_ne (by positivity) (Ne.symm hm)
      have hz : 1 < (1 + rate / 12) ^ (years * 12) :=
        one_lt_zpow₀ (by linarith) hn
      simp only [calculate_monthly_payment]
      rw [if_neg hm, if_neg (fun hc => by linarith [hc.1]),
        if_neg (fun hc => absurd (sub_eq_zero.mp hc) (ne_of_gt hz)),
        if_neg hm]
  · simp only [calculate_monthly_payment]
    rw [if_neg (by norm_num), if_neg (by norm_num), if_neg (by norm_num)]
    rw [pyRound2_eq (@pyRoundInt_down _ 18871 (by norm_num) (by norm_num))]
    norm_num

theorem C4_amortized_payment_formula_witness :
    calculate_monthly_payment 10000 (1/20) 5 =
      if ((1:ℚ)/20) / 12 = 0 then
        Except.ok ((10000 : ℚ) / (((5:ℤ) * 12 : ℤ) : ℚ))
      else
        Except.ok (pyRound2 ((10000:ℚ) *
          ((((1:ℚ)/20) / 12) * (1 + ((1:ℚ)/20) / 12) ^ ((5:ℤ) * 12)) /
          ((1 + ((1:ℚ)/20) / 12) ^ ((5:ℤ) * 12) - 1))) :=
  C4_amortized_payment_formula.1 10000 (1/20) 5 (by norm_num) (by norm_num)

/-- C3 counterexample: the claim says `calculate_compound_interest` fails
with `InvalidArgument` whenever `principal < 0`; on the code, a negative
principal is accepted and a value is returned (there is no validation and
no `InvalidArgument` error anywhere in `utils.py`). -/
theorem C3_counterexample_negative_principal_succeeds :
    calculate_compound_interest (-1000) (1/20) 10 12 =
      Except.ok (-(164701/100)) := by
  simp only [calculate_compound_interest]
  rw [if_neg (by norm_num), if_neg (by norm_num)]
  rw [pyRound2_eq (@pyRoundInt_down _ (-164701) (by norm_num) (by norm_num))]
  norm_num

/-- C3 amended: the calculator functions perform no precondition
validation and define no `InvalidArgument` error.
`calculate_compound_interest` succeeds for negative principal and
negative years (whenever the base `1 + rate/12` is nonzero), while
`compounds_per_year = 0` raises `ZeroDivisionError`;
`calculate_monthly_payment` with `years = 0` (so `num_payments = 0`)
raises `ZeroDivisionError` for every rate. -/
theorem C3_calculator_no_validation :
    (∀ (principal rate : ℚ) (time : ℤ), 1 + rate / 12 ≠ 0 →
      ∃ v, calculate_compound_interest principal rate time 12 =
        Except.ok v) ∧
    (∀ (principal rate : ℚ) (time : ℤ),
      calculate_compound_interest principal rate time 0 =
        Except.error PyError.zeroDivision) ∧
    (∀ (loan_amount annual_rate : ℚ),
      calculate_monthly_payment loan_amount annual_rate 0 =
        Except.error PyError.zeroDivision) := by
  refine ⟨?_, ?_, ?_⟩
  · intro p r t hbase
    simp only [calculate_compound_interest]
    rw [if_neg (by norm_num)]
    rw [if_neg (fun hc => hbase (by push_cast at hc; exact hc.1))]
    exact ⟨_, rfl⟩
  · intro p r t
    simp [calculate_compound_interest]
  · intro loan r
    by_cases hm : r / 12 = 0
    · simp only [calculate_monthly_payment]
      rw [if_pos hm, if_pos (by decide)]
    · simp only [calculate_monthly_payment]
      rw [if_neg hm, if_neg (fun hc => absurd hc.2 (by decide)),
        if_pos (by norm_num)]

theorem C3_calculator_no_validation_witness :
    (∃ v, calculate_compound_interest (-1000) (1/20) (-10) 12 =
      Except.ok v) ∧
    calculate_monthly_payment 500 (1/10) 0 =
      Except.error PyError.zeroDivision :=
  ⟨C3_calculator_no_validation.1 (-1000) (1/20) (-10) (by norm_num),
    C3_calculator_no_validation.2.2 500 (1/10)⟩

/-- C9: `calculate_compound_interest 1000 (1/20) 10 12` (monthly
compounding, the source's default frequency) returns `1647.01`, which is
strictly greater than annual compounding `1000 * 1.05 ^ 10`. -/
theorem C9_monthly_compounding_beats_annual :
    calculate_compound_interest 1000 (1/20) 10 12 =
      Except.ok (164701/100) ∧
    (1000 : ℚ) * (21/20) ^ (10:ℕ) < 164701/100 := by
  constructor
  · simp only [calculate_compound_interest]
    rw [if_neg (by norm_num), if_neg (by norm_num)]
    rw [pyRound2_eq (@pyRoundInt_up _ 164701 (by norm_num) (by norm_num))]
    norm_num
  · norm_num

/-- Greedy scan of `(?:,\d{3})*` in the amount pattern of
`FinanceUtils.extract_amounts`: consume as many `,ddd` groups as possible,
returning the consumed characters and the rest. -/
def commaGroups : List Char → List Char × List Char
  | ',' :: a :: b :: c :: rest =>
    if a.isDigit && b.isDigit && c.isDigit then
      let m := commaGroups rest
      (',' :: a :: b :: c :: m.1, m.2)
    else ([], ',' :: a :: b :: c :: rest)
  | rest => ([], rest)

/-- The optional fraction `(?:\.\d{2})?` of the amount pattern: consume a
dot followed by exactly two digits when present. -/
def fracPart : List Char → List Char × List Char
  | '.' :: a :: b :: rest =>
    if a.isDigit && b.isDigit then (['.', a, b], rest)
    else ([], '.' :: a :: b :: rest)
  | rest => ([], rest)

/-- The match of the capture group `\d+(?:,\d{3})*(?:\.\d{2})?` starting
at `cs` (whose head must be a digit for the match to exist): greedy
digits, then comma groups, then the optional two-digit fraction.  No
backtracking is needed because the three parts start with pairwise
distinct character classes.  Returns the captured group and the rest of
the input. -/
def matchAmount (cs : List Char) : List Char × List Char :=
  let d := cs.takeWhile Char.isDigit
  let r1 := cs.dropWhile Char.isDigit
  let g := commaGroups r1
  let f := fracPart g.2
  (d ++ g.1 ++ f.1, f.2)

/-- Fuel-indexed scan of `re.findall(r'\$?(\d+(?:,\d{3})*(?:\.\d{2})?)', text)`:
at each position the pattern matches iff the position holds a digit, or a
`$` immediately followed by a digit (the optional `\$?` can never be the
whole match since `\d+` needs a digit); on a match the engine emits the
captured group and resumes after the match, otherwise it advances one
character. -/
def findallAux : Nat → List Char → List (List Char)
  | 0, _ => []
  | _ + 1, [] => []
  | fuel + 1, c :: rest =>
    if c.isDigit then
      let m := matchAmount (c :: rest)
      m.1 :: findallAux fuel m.2
    else if c = '$' then
      match rest with
      | [] => []
      | d :: _ =>
        if d.isDigit then
          let m := matchAmount rest
          m.1 :: findallAux fuel m.2
        else findallAux fuel rest
    else findallAux fuel rest

/-- The findall scan with enough fuel (a match always consumes at least
one character, so `text.length` steps suffice). -/
def findall (text : List Char) : List (List Char) :=
  findallAux text.length text

/-- Conversion `float(match.replace(',', ''))` applied to a captured
group: commas removed, integer digits, optional two fraction digits.  A
captured group always converts, so the `except ValueError: continue`
branch of the source loop never fires and is not modelled as a failure. -/
def parseAmount (tok : List Char) : ℚ :=
  let noCommas := tok.filter (fun c => !(c = ','))
  let intPart := noCommas.takeWhile Char.isDigit
  let frac := noCommas.dropWhile Char.isDigit
  let intVal : ℕ := intPart.foldl (fun n c => 10 * n + (c.toNat - 48)) 0
  match frac with
  | '.' :: a :: b :: _ =>
    (intVal : ℚ) + (((10 * (a.toNat - 48) + (b.toNat - 48) : ℕ) : ℚ)) / 100
  | _ => (intVal : ℚ)

/-- Model of `FinanceUtils.extract_amounts` in `src/backend/utils.py`. -/
def extract_amounts (text : List Char) : List ℚ :=
  (findall text).map parseAmount

/-- Full-match checker for what may follow the leading digits in the
amount grammar `\d+(?:,\d{3})*(?:\.\d{2})?`. -/
def grammarTail : List Char → Bool
  | [] => true
  | ',' :: a :: b :: c :: rest =>
    a.isDigit && b.isDigit && c.isDigit && grammarTail rest
  | ['.', a, b] => a.isDigit && b.isDigit
  | _ => false

/-- Full-match checker for the amount grammar
`\d+(?:,\d{3})*(?:\.\d{2})?` (the spec's "amount grammar"). -/
def amountGrammar (tok : List Char) : Bool :=
  match tok.takeWhile Char.isDigit with
  | [] => false
  | _ :: _ => grammarTail (tok.dropWhile Char.isDigit)

/-- `OrderedInfixes toks text`: the token list `toks` occurs inside
`text` as non-overlapping substrings, in left-to-right order. -/
inductive OrderedInfixes : List (List Char) → List Char → Prop where
  | nil (text : List Char) : OrderedInfixes [] text
  | cons (tok : List Char) (toks : List (List Char)) (pre suf : List Char)
      (h : OrderedInfixes toks suf) :
      OrderedInfixes (tok :: toks) (pre ++ tok ++ suf)

/-- `ScanDecomp toks text`: `text` decomposes as alternating gaps and the
tokens of `toks`, in order, with every gap free of digits.  This is the
full findall invariant: the tokens are ordered non-overlapping
substrings (soundness), and since a digit can only occur inside a token
and every amount-grammar match starts with a digit, no grammar-matching
substring of `text` can lie in the skipped parts (completeness — the
scan drops no match). -/
inductive ScanDecomp : List (List Char) → List Char → Prop where
  | nil (gap : List Char) (hgap : ∀ c ∈ gap, c.isDigit = false) :
      ScanDecomp [] gap
  | cons (tok : List Char) (toks : List (List Char)) (pre suf : List Char)
      (hpre : ∀ c ∈ pre, c.isDigit = false) (h : ScanDecomp toks suf) :
      ScanDecomp (tok :: toks) (pre ++ tok ++ suf)

lemma ScanDecomp.skip {toks : List (List Char)} {t : List Char}
    {c : Char} (hc : c.isDigit = false) (h : ScanDecomp toks t) :
    ScanDecomp toks (c :: t) := by
  induction h with
  | nil gap hgap =>
    refine ScanDecomp.nil (c :: gap) ?_
    intro x hx
    rcases List.mem_cons.mp hx with rfl | hx2
    · exact hc
    · exact hgap x hx2
  | cons tok toks pre suf hpre h ih =>
    have hpre2 : ∀ x ∈ c :: pre, x.isDigit = false := by
      intro x hx
      rcases List.mem_cons.mp hx with rfl | hx2
      · exact hc
      · exact hpre x hx2
    have := ScanDecomp.cons tok toks (c :: pre) suf hpre2 h
    simpa using this

lemma ScanDecomp.toOrderedInfixes {toks : List (List Char)}
    {t : List Char} (h : ScanDecomp toks t) : OrderedInfixes toks t := by
  induction h with
  | nil gap hgap => exact .nil gap
  | cons tok toks pre suf hpre h ih => exact .cons tok toks pre suf ih

lemma amountGrammar_head_digit (tok : List Char)
    (h : amountGrammar tok = true) :
    ∃ d t2, tok = d :: t2 ∧ d.isDigit = true := by
  rcases tok with _ | ⟨c, t⟩
  · exact absurd h (by decide)
  · by_cases hc : c.isDigit = true
    · exact ⟨c, t, rfl, hc⟩
    · rw [amountGrammar, List.takeWhile_cons] at h
      simp only [hc] at h
      exact absurd h (by simp)

lemma commaGroups_append (cs : List Char) :
    (commaGroups cs).1 ++ (commaGroups cs).2 = cs := by
  induction cs using commaGroups.induct with
  | case1 a b c rest h ih => simp [commaGroups, h, ih]
  | case2 a b c rest h => simp [commaGroups, h]
  | case3 rest h => simp [commaGroups]

lemma fracPart_append (cs : List Char) :
    (fracPart cs).1 ++ (fracPart cs).2 = cs := by
  unfold fracPart
  split
  · split <;> simp
  · simp

lemma commaGroups_head (cs : List Char) :
    (commaGroups cs).1 = [] ∨ ∃ t, (commaGroups cs).1 = ',' :: t := by
  induction cs using commaGroups.induct with
  | case1 a b c rest h ih =>
    right
    exact ⟨a :: b :: c :: (commaGroups rest).1, by simp [commaGroups, h]⟩
  | case2 a b c rest h => left; simp [commaGroups, h]
  | case3 rest h => left; simp [commaGroups]

lemma fracPart_head (cs : List Char) :
    (fracPart cs).1 = [] ∨ ∃ a b, (fracPart cs).1 = ['.', a, b] := by
  unfold fracPart
  split
  · split
    · rename_i a b rest h
      right
      exact ⟨a, b, rfl⟩
    · left; rfl
  · left; rfl

lemma commaGroups_rest_len (cs : List Char) :
    (commaGroups cs).2.length ≤ cs.length := by
  conv_rhs => rw [← commaGroups_append cs]
  rw [List.length_append]
  exact Nat.le_add_left _ _

lemma fracPart_rest_len (cs : List Char) :
    (fracPart cs).2.length ≤ cs.length := by
  conv_rhs => rw [← fracPart_append cs]
  rw [List.length_append]
  exact Nat.le_add_left _ _

lemma dropWhile_len (p : Char → Bool) (l : List Char) :
    (l.dropWhile p).length ≤ l.length :=
  (List.dropWhile_sublist _).length_le

lemma matchAmount_append (cs : List Char) :
    (matchAmount cs).1 ++ (matchAmount cs).2 = cs := by
  simp only [matchAmount]
  rw [List.append_assoc, List.append_assoc, fracPart_append,
    commaGroups_append, List.takeWhile_append_dropWhile]

lemma matchAmount_rest_len {c : Char} (rest : List Char)
    (h : c.isDigit = true) :
    (matchAmount (c :: rest)).2.length ≤ rest.length := by
  simp only [matchAmount]
  calc (fracPart (commaGroups
          ((c :: rest).dropWhile Char.isDigit)).2).2.length
      ≤ (commaGroups ((c :: rest).dropWhile Char.isDigit)).2.length :=
        fracPart_rest_len _
    _ ≤ ((c :: rest).dropWhile Char.isDigit).length := commaGroups_rest_len _
    _ ≤ rest.length := by
        rw [List.dropWhile_cons_of_pos h]; exact dropWhile_len _ _

lemma grammarTail_fracPart (cs : List Char) :
    grammarTail (fracPart cs).1 = true := by
  unfold fracPart
  split
  · split
    · rename_i a b rest h
      simpa [grammarTail] using h
    · simp [grammarTail]
  · simp [grammarTail]

lemma grammarTail_parts (cs : List Char) :
    grammarTail ((commaGroups cs).1 ++ (fracPart (commaGroups cs).2).1) =
      true := by
  induction cs using commaGroups.induct with
  | case1 a b c rest h ih =>
    simp only [commaGroups, if_pos h, List.cons_append, grammarTail]
    simp only [Bool.and_eq_true] at h ⊢
    exact ⟨⟨h.1, h.2⟩, ih⟩
  | case2 a b c rest h =>
    simpa [commaGroups, h] using grammarTail_fracPart (',' :: a :: b :: c :: rest)
  | case3 rest h =>
    simpa [commaGroups] using grammarTail_fracPart rest

lemma takeWhile_all_append (p : Char → Bool) :
    ∀ (l1 l2 : List Char), (∀ x ∈ l1, p x = true) →
      (∀ d t, l2 = d :: t → p d = false) →
      (l1 ++ l2).takeWhile p = l1 ∧ (l1 ++ l2).dropWhile p = l2 := by
  intro l1
  induction l1 with
  | nil =>
    intro l2 _ hhd
    rcases l2 with _ | ⟨d, t⟩
    · simp
    · have := hhd d t rfl
      simp [List.takeWhile_cons, List.dropWhile_cons, this]
  | cons x l1 ih =>
    intro l2 hall hhd
    have hx : p x = true := hall x (by simp)
    obtain ⟨h1, h2⟩ := ih l2 (fun y hy => hall y (by simp [hy])) hhd
    constructor
    · simp [List.takeWhile_cons, hx, h1]
    · simp [List.dropWhile_cons, hx, h2]

lemma matchAmount_grammar {c : Char} (rest : List Char)
    (h : c.isDigit = true) :
    amountGrammar (matchAmount (c :: rest)).1 = true := by
  set cs := c :: rest with hcs
  set d := cs.takeWhile Char.isDigit with hd
  set r1 := cs.dropWhile Char.isDigit with hr1
  set g := commaGroups r1 with hg
  set f := fracPart g.2 with hf
  have htok : (matchAmount cs).1 = d ++ (g.1 ++ f.1) := by
    simp only [matchAmount, ← hd, ← hr1, ← hg, ← hf, List.append_assoc]
  have hall : ∀ x ∈ d, Char.isDigit x = true := by
    intro x hx
    exact List.mem_takeWhile_imp hx
  have hhd : ∀ e t, g.1 ++ f.1 = e :: t → Char.isDigit e = false := by
    intro e t het
    rcases commaGroups_head r1 with hg1 | ⟨u, hg1⟩
    · rw [← hg] at hg1
      rcases fracPart_head g.2 with hf1 | ⟨a, b, hf1⟩
      · rw [← hf] at hf1
        rw [hg1, hf1] at het
        simp at het
      · rw [← hf] at hf1
        rw [hg1, hf1] at het
        simp at het
        rw [← het.1]
        rfl
    · rw [← hg] at hg1
      rw [hg1] at het
      simp at het
      rw [← het.1]
      rfl
  obtain ⟨htake, hdrop⟩ :=
    takeWhile_all_append Char.isDigit d (g.1 ++ f.1) hall hhd
  have hdne : d = c :: (rest.takeWhile Char.isDigit) := by
    rw [hd, hcs, List.takeWhile_cons_of_pos h]
  rw [htok]
  simp only [amountGrammar, htake, hdrop]
  rw [hdne]
  exact grammarTail_parts r1

lemma findallAux_cons (fuel : Nat) (c : Char) (rest : List Char) :
    findallAux (fuel + 1) (c :: rest) =
      if c.isDigit then
        (matchAmount (c :: rest)).1 ::
          findallAux fuel (matchAmount (c :: rest)).2
      else if c = '$' then
        match rest with
        | [] => []
        | d :: _ =>
          if d.isDigit then
            (matchAmount rest).1 :: findallAux fuel (matchAmount rest).2
          else findallAux fuel rest
      else findallAux fuel rest := rfl

lemma findallAux_dollar_nil (fuel : Nat) :
    findallAux (fuel + 1) ['$'] = [] := rfl

lemma findallAux_dollar (fuel : Nat) (d : Char) (rest2 : List Char) :
    findallAux (fuel + 1) ('$' :: d :: rest2) =
      if d.isDigit then
        (matchAmount (d :: rest2)).1 ::
          findallAux fuel (matchAmount (d :: rest2)).2
      else findallAux fuel (d :: rest2) := rfl

lemma findallAux_spec (fuel : Nat) : ∀ cs : List Char, cs.length ≤ fuel →
    ScanDecomp (findallAux fuel cs) cs ∧
    ∀ tok ∈ findallAux fuel cs, amountGrammar tok = true := by
  induction fuel with
  | zero =>
    intro cs hlen
    have hnil : cs = [] := List.eq_nil_of_length_eq_zero (Nat.le_zero.mp hlen)
    subst hnil
    exact ⟨by simpa [findallAux] using ScanDecomp.nil [] (by simp),
      by simp [findallAux]⟩
  | succ fuel ih =>
    intro cs hlen
    rcases cs with _ | ⟨c, rest⟩
    · exact ⟨by simpa [findallAux] using ScanDecomp.nil [] (by simp),
        by simp [findallAux]⟩
    by_cases hd : c.isDigit = true
    · have hm : (matchAmount (c :: rest)).2.length ≤ fuel := by
        have := matchAmount_rest_len rest hd
        simp only [List.length_cons] at hlen
        omega
      obtain ⟨hSD, hG⟩ := ih _ hm
      rw [findallAux_cons, if_pos hd]
      constructor
      · have := ScanDecomp.cons (matchAmount (c :: rest)).1 _ [] _
          (by simp) hSD
        simpa [matchAmount_append (c :: rest)] using this
      · intro tok htok
        rcases List.mem_cons.mp htok with rfl | hmem
        · exact matchAmount_grammar rest hd
        · exact hG tok hmem
    · have hdf : c.isDigit = false := by
        cases h2 : c.isDigit
        · rfl
        · exact absurd h2 hd
      by_cases hS : c = '$'
      · subst hS
        rcases rest with _ | ⟨d, rest2⟩
        · rw [findallAux_dollar_nil]
          refine ⟨ScanDecomp.nil ['$'] ?_, by simp⟩
          intro x hx
          rcases List.mem_cons.mp hx with rfl | hx2
          · rfl
          · exact absurd hx2 (by simp)
        by_cases hdd : d.isDigit = true
        · have hm : (matchAmount (d :: rest2)).2.length ≤ fuel := by
            have := matchAmount_rest_len rest2 hdd
            simp only [List.length_cons] at hlen
            omega
          obtain ⟨hSD, hG⟩ := ih _ hm
          rw [findallAux_dollar, if_pos hdd]
          constructor
          · have := ScanDecomp.cons (matchAmount (d :: rest2)).1 _
              ['$'] _ (by intro x hx; rw [List.mem_singleton.mp hx]; rfl) hSD
            simpa [matchAmount_append (d :: rest2)] using this
          · intro tok htok
            rcases List.mem_cons.mp htok with rfl | hmem
            · exact matchAmount_grammar rest2 hdd
            · exact hG tok hmem
        · have hm : (d :: rest2).length ≤ fuel := by
            simp only [List.length_cons] at hlen ⊢
            omega
          obtain ⟨hSD, hG⟩ := ih _ hm
          rw [findallAux_dollar, if_neg hdd]
          exact ⟨hSD.skip hdf, hG⟩
      · have hm : rest.length ≤ fuel := by
          simp only [List.length_cons] at hlen
          omega
        obtain ⟨hSD, hG⟩ := ih _ hm
        rw [findallAux_cons, if_neg hd, if_neg hS]
        exact ⟨hSD.skip hdf, hG⟩

/-- C5: `extract_amounts` returns exactly the numeric values of the
grammar-matching substrings the scan finds, in left-to-right order with
duplicates preserved.  Soundness: the output is the parse of a token
list whose members are ordered non-overlapping substrings of the input,
each fully matching the amount grammar.  Completeness: the same token
list decomposes the input with digit-free gaps (`ScanDecomp`), and every
grammar-matching token starts with a digit, so no grammar-matching
substring lies in the skipped parts — the scan drops no match.  The
empty input yields the empty list, and the spec's example extracts
`[5000, 2500]`.  The function is total (the source's
`except ValueError: continue` is unreachable for captured groups). -/
theorem C5_extract_amounts_ordered_grammar_values :
    (∀ text : List Char, ∃ toks : List (List Char),
      extract_amounts text = toks.map parseAmount ∧
      OrderedInfixes toks text ∧
      ScanDecomp toks text ∧
      ∀ tok ∈ toks, amountGrammar tok = true) ∧
    (∀ tok : List Char, amountGrammar tok = true →
      ∃ d t2, tok = d :: t2 ∧ d.isDigit = true) ∧
    extract_amounts [] = [] ∧
    extract_amounts
        (String.toList "invest $5000 in stocks and save $2,500") =
      [5000, 2500] := by
  refine ⟨?_, amountGrammar_head_digit, rfl, ?_⟩
  · intro text
    obtain ⟨hSD, hG⟩ := findallAux_spec text.length text le_rfl
    exact ⟨findall text, rfl, hSD.toOrderedInfixes, hSD, hG⟩
  · rfl

theorem C5_extract_amounts_ordered_grammar_values_witness :
    ∃ d t2, String.toList "12" = d :: t2 ∧ d.isDigit = true :=
  C5_extract_amounts_ordered_grammar_values.2.1 (String.toList "12")
    (by decide)

/-- C6 counterexample: the claim says an input whose only numeric token is
`-$5` (or `3.456`) contributes no extracted value; on the code, the
unanchored pattern matches inside those tokens, so `extract_amounts`
returns `[5]` for `"-$5"` (the sign is skipped) and `[3.45, 6]` for
`"3.456"` (the first two fraction digits close one match and the leftover
digit starts another). -/
theorem C6_counterexample_partial_matches_extract :
    extract_amounts (String.toList "-$5") = [5] ∧
    extract_amounts (String.toList "3.456") = [345/100, 6] := by
  constructor
  · rfl
  · have h : extract_amounts (String.toList "3.456") =
        [(3 : ℚ) + 45/100, 6] := rfl
    rw [h]
    norm_num

/-- C6 amended: negative signs and third fraction digits are indeed
outside the amount pattern's grammar (no full-grammar token carries them),
but the pattern is unanchored, so such tokens still contribute extracted
values from their partial matches: `"-$5"` yields `[5]` and `"3.456"`
yields `[3.45, 6]`. -/
theorem C6_amended_sign_and_fraction_outside_grammar :
    amountGrammar (String.toList "-$5") = false ∧
    amountGrammar (String.toList "3.456") = false ∧
    extract_amounts (String.toList "-$5") = [5] ∧
    extract_amounts (String.toList "3.456") = [345/100, 6] := by
  refine ⟨rfl, rfl, rfl, ?_⟩
  have h : extract_amounts (String.toList "3.456") =
      [(3 : ℚ) + 45/100, 6] := rfl
  rw [h]
  norm_num

/-- Search model for the `has_amount` field of
`FinanceUtils.validate_financial_input` in `src/backend/utils.py`:
`re.search(r'\$?\d+(?:,\d{3})*(?:\.\d{2})?', text)` succeeds iff some
position starts a match, i.e. holds a digit or a `$` immediately followed
by a digit (all parts of the pattern after `\d` are optional).  The other
two fields (`has_percentage`, `has_date`) are independent regex tests not
needed by any claim and are not modelled. -/
def has_amount : List Char → Bool
  | [] => false
  | c :: rest =>
    if c.isDigit then true
    else if c = '$' then
      match rest with
      | [] => false
      | d :: _ => if d.isDigit then true else has_amount rest
    else has_amount rest

lemma has_amount_cons (c : Char) (rest : List Char) :
    has_amount (c :: rest) =
      if c.isDigit then true
      else if c = '$' then
        match rest with
        | [] => false
        | d :: _ => if d.isDigit then true else has_amount rest
      else has_amount rest := rfl

lemma has_amount_dollar (d : Char) (rest2 : List Char) :
    has_amount ('$' :: d :: rest2) =
      if d.isDigit then true else has_amount (d :: rest2) := rfl

/-- C10: the `has_amount` flag of `validate_financial_input` is true iff
the input contains at least one decimal digit anywhere — the amount
pattern is unanchored and all of its currency parts are optional, so any
single digit sets the flag. -/
theorem C10_has_amount_iff_any_digit :
    ∀ text : List Char,
      has_amount text = true ↔ ∃ c ∈ text, c.isDigit = true := by
  intro text
  induction text with
  | nil => simp [has_amount]
  | cons c rest ih =>
    by_cases hd : c.isDigit = true
    · rw [has_amount_cons, if_pos hd]
      simp only [true_iff]
      exact ⟨c, by simp, hd⟩
    · by_cases hS : c = '$'
      · subst hS
        rcases rest with _ | ⟨d, rest2⟩
        · simp [has_amount]
        by_cases hdd : d.isDigit = true
        · rw [has_amount_dollar, if_pos hdd]
          simp only [true_iff]
          exact ⟨d, by simp, hdd⟩
        · rw [has_amount_dollar, if_neg hdd]
          rw [ih]
          constructor
          · rintro ⟨x, hx, hxd⟩
            exact ⟨x, by simp [hx], hxd⟩
          · rintro ⟨x, hx, hxd⟩
            rcases List.mem_cons.mp hx with rfl | hx2
            · exact absurd hxd hd
            · exact ⟨x, hx2, hxd⟩
      · rw [has_amount_cons, if_neg hd, if_neg hS, ih]
        constructor
        · rintro ⟨x, hx, hxd⟩
          exact ⟨x, by simp [hx], hxd⟩
        · rintro ⟨x, hx, hxd⟩
          rcases List.mem_cons.mp hx with rfl | hx2
          · exact absurd hxd hd
          · exact ⟨x, hx2, hxd⟩

lemma find?_append_of_none {α : Type} (p : α → Bool) (l1 l2 : List α)
    (h : ∀ a ∈ l1, p a = false) : (l1 ++ l2).find? p = l2.find? p := by
  induction l1 with
  | nil => simp
  | cons a l1 ih =>
    have hf := h a (List.mem_cons_self a l1)
    rw [List.cons_append, List.find?_cons, hf]
    exact ih (fun x hx => h x (List.mem_cons_of_mem a hx))

/-- The ordered category table of `FinanceUtils.categorize_expense` in
`src/backend/utils.py` (Python dicts preserve insertion order, so the
`for category, keywords in categories.items()` loop visits the pairs in
this order). -/
def categoriesTable : List (List Char × List (List Char)) := [
  (String.toList "food",
    ["restaurant", "grocery", "food", "dining", "coffee", "lunch",
      "dinner"].map String.toList),
  (String.toList "transportation",
    ["gas", "uber", "taxi", "bus", "train", "parking",
      "car"].map String.toList),
  (String.toList "entertainment",
    ["movie", "concert", "game", "entertainment",
      "streaming"].map String.toList),
  (String.toList "shopping",
    ["amazon", "store", "mall", "shopping", "clothes",
      "electronics"].map String.toList),
  (String.toList "utilities",
    ["electric", "water", "internet", "phone", "utility"].map String.toList),
  (String.toList "healthcare",
    ["doctor", "hospital", "pharmacy", "medical",
      "dentist"].map String.toList)]

/-- Model of `FinanceUtils.categorize_expense` in `src/backend/utils.py`:
lower-case the input, visit the category table in order, return the first
category one of whose keywords occurs in the text (Python `in`, i.e.
substring containment), else `other`. -/
def categorize_expense (text : List Char) : List Char :=
  let text_lower := text.map Char.toLower
  match categoriesTable.find?
      (fun ck => ck.2.any (fun kw => decide (kw <:+: text_lower))) with
  | some ck => ck.1
  | none => String.toList "other"

lemma categoryHit_iff (tl : List Char) (ck : List Char × List (List Char)) :
    (ck.2.any (fun kw => decide (kw <:+: tl)) = true) ↔
      ∃ kw ∈ ck.2, kw <:+: tl := by
  simp [List.any_eq_true]

/-- C7: `categorize_expense` lower-cases its input and scans the fixed
category table in order: the example classifies as food, the empty string
as `other`; every result is `other` or a category of the table; when no
keyword of any category occurs in the lowered text the result is `other`;
and when the table splits as `pre ++ ck :: suf` with no category of `pre`
matching and `ck` matching, the result is exactly `ck`'s name (first
match wins). -/
theorem C7_categorize_expense_first_match :
    categorize_expense (String.toList "Lunch at restaurant downtown") =
      String.toList "food" ∧
    categorize_expense [] = String.toList "other" ∧
    (∀ text : List Char,
      categorize_expense text = String.toList "other" ∨
      ∃ ck ∈ categoriesTable, categorize_expense text = ck.1) ∧
    (∀ text : List Char,
      (∀ ck ∈ categoriesTable,
        ¬ ∃ kw ∈ ck.2, kw <:+: text.map Char.toLower) →
      categorize_expense text = String.toList "other") ∧
    (∀ (text : List Char) (pre : List (List Char × List (List Char)))
        (ck : List Char × List (List Char))
        (suf : List (List Char × List (List Char))),
      categoriesTable = pre ++ ck :: suf →
      (∀ ck2 ∈ pre, ¬ ∃ kw ∈ ck2.2, kw <:+: text.map Char.toLower) →
      (∃ kw ∈ ck.2, kw <:+: text.map Char.toLower) →
      categorize_expense text = ck.1) := by
  refine ⟨by decide, by decide, ?_, ?_, ?_⟩
  · intro text
    rcases hf : categoriesTable.find?
        (fun ck => ck.2.any
          (fun kw => decide (kw <:+: text.map Char.toLower))) with _ | ck
    · left
      simp [categorize_expense, hf]
    · right
      exact ⟨ck, List.mem_of_find?_eq_some hf,
        by simp [categorize_expense, hf]⟩
  · intro text h
    have hf : categoriesTable.find?
        (fun ck => ck.2.any
          (fun kw => decide (kw <:+: text.map Char.toLower))) = none := by
      rw [List.find?_eq_none]
      intro ck hck
      rw [categoryHit_iff]
      exact h ck hck
    simp [categorize_expense, hf]
  · intro text pre ck suf htab hpre hck
    have hnone : ∀ a ∈ pre,
        (a.2.any (fun kw => decide (kw <:+: text.map Char.toLower))) =
          false := by
      intro a ha
      have hn : ¬ (a.2.any
          (fun kw => decide (kw <:+: text.map Char.toLower)) = true) := by
        rw [categoryHit_iff]
        exact hpre a ha
      cases h2 : a.2.any (fun kw => decide (kw <:+: text.map Char.toLower))
      · rfl
      · exact absurd h2 hn
    have hf : categoriesTable.find?
        (fun ck2 => ck2.2.any
          (fun kw => decide (kw <:+: text.map Char.toLower))) = some ck := by
      rw [htab, find?_append_of_none _ _ _ hnone, List.find?_cons,
        (categoryHit_iff (text.map Char.toLower) ck).mpr hck]
    simp [categorize_expense, hf]

theorem C7_categorize_expense_first_match_witness :
    categorize_expense (String.toList "zzz") = String.toList "other" :=
  C7_categorize_expense_first_match.2.2.2.1 (String.toList "zzz")
    (by decide)

/-- The ordered keyword-response table of `generate_fallback_response` in
`src/api_server.py` (Python dicts preserve insertion order, so the
`for keyword, response in responses.items()` loop visits the pairs in
this order). -/
def fallbackResponses : List (List Char × List Char) := [
  (String.toList "investment", String.toList "Great question about investing! Here are some key principles: 1) Start early to benefit from compound interest, 2) Diversify your portfolio across different asset classes, 3) Consider low-cost index funds for beginners, 4) Only invest money you won't need for at least 5 years. Would you like specific advice based on your risk tolerance?"),
  (String.toList "budget", String.toList "Creating a budget is essential for financial health! Try the 50/30/20 rule: 50% for needs (rent, utilities, groceries), 30% for wants (entertainment, dining out), and 20% for savings and debt repayment. Track your expenses for a month to see where your money goes, then adjust accordingly."),
  (String.toList "loan", String.toList "For loan calculations, the key factors are: principal amount, interest rate, and loan term. For example, a $10,000 loan at 5% annual interest for 5 years would have monthly payments of approximately $188.71. Would you like me to help calculate payments for a specific loan scenario?"),
  (String.toList "save", String.toList "Smart saving strategies include: 1) Pay yourself first - save before spending, 2) Automate transfers to savings, 3) Build an emergency fund of 3-6 months expenses, 4) Take advantage of high-yield savings accounts, 5) Consider cutting unnecessary subscriptions and expenses."),
  (String.toList "debt", String.toList "For debt management: 1) List all debts with balances and interest rates, 2) Consider the debt snowball (pay minimums, extra to smallest) or avalanche method (extra to highest interest), 3) Avoid taking on new debt, 4) Consider debt consolidation if it lowers your interest rate."),
  (String.toList "retirement", String.toList "Retirement planning tips: 1) Start as early as possible, 2) Contribute enough to get your employer's 401(k) match, 3) Consider both traditional and Roth IRA options, 4) Aim to save 10-15% of your income, 5) Review and adjust your plan annually.")]

/-- The fixed text surrounding the echoed query in the default branch of
`generate_fallback_response`. -/
def fallbackDefaultPrefix : List Char :=
  String.toList "I understand you're asking about: '"

/-- Continuation of the default fallback text after the echoed query. -/
def fallbackDefaultSuffix : List Char :=
  String.toList "'. While I'd love to provide personalized financial advice, I recommend consulting with a qualified financial advisor for your specific situation. However, I can help with general questions about budgeting, saving, investing basics, and financial calculations. What specific area would you like to explore?"

/-- Model of `generate_fallback_response` in `src/api_server.py`:
lower-case the message, return the canned response of the first keyword
contained in it (Python `in`, i.e. substring containment, in table
order), else the default text echoing the original message verbatim. -/
def generate_fallback_response (message : List Char) : List Char :=
  let message_lower := message.map Char.toLower
  match fallbackResponses.find?
      (fun kv => decide (kv.1 <:+: message_lower)) with
  | some kv => kv.2
  | none => fallbackDefaultPrefix ++ message ++ fallbackDefaultSuffix

lemma fallback_response_ne_nil (message : List Char) :
    generate_fallback_response message ≠ [] := by
  rcases hf : fallbackResponses.find?
      (fun kv => decide (kv.1 <:+: message.map Char.toLower)) with _ | kv
  · simp only [generate_fallback_response, hf]
    intro h
    rcases List.append_eq_nil.mp h with ⟨h1, _⟩
    rcases List.append_eq_nil.mp h1 with ⟨h2, _⟩
    exact absurd h2 (by decide : fallbackDefaultPrefix ≠ [])
  · have hall : ∀ kv2 ∈ fallbackResponses, kv2.2 ≠ [] := by decide
    simp only [generate_fallback_response, hf]
    exact hall kv (List.mem_of_find?_eq_some hf)

/-- C2: `generate_fallback_response` is total with non-empty output; its
keyword table covers exactly the topics {investment, budget, loan, save,
debt, retirement} in that priority order; when no keyword is contained in
the lower-cased message the result is the generic template echoing the
original message verbatim; and when the table splits as `pre ++ kv :: suf`
with no keyword of `pre` matching and `kv`'s keyword matching, the result
is exactly `kv`'s canned response (first match wins). -/
theorem C2_fallback_keyword_table_total :
    (∀ message : List Char, generate_fallback_response message ≠ []) ∧
    fallbackResponses.map Prod.fst =
      ["investment", "budget", "loan", "save", "debt",
        "retirement"].map String.toList ∧
    (∀ message : List Char,
      (∀ kv ∈ fallbackResponses, ¬ kv.1 <:+: message.map Char.toLower) →
      generate_fallback_response message =
        fallbackDefaultPrefix ++ message ++ fallbackDefaultSuffix) ∧
    (∀ (message : List Char) (pre : List (List Char × List Char))
        (kv : List Char × List Char) (suf : List (List Char × List Char)),
      fallbackResponses = pre ++ kv :: suf →
      (∀ kv2 ∈ pre, ¬ kv2.1 <:+: message.map Char.toLower) →
      kv.1 <:+: message.map Char.toLower →
      generate_fallback_response message = kv.2) := by
  refine ⟨fallback_response_ne_nil, by decide, ?_, ?_⟩
  · intro message h
    have hf : fallbackResponses.find?
        (fun kv => decide (kv.1 <:+: message.map Char.toLower)) = none := by
      rw [List.find?_eq_none]
      intro kv hkv
      simpa using h kv hkv
    simp [generate_fallback_response, hf]
  · intro message pre kv suf htab hpre hkv
    have hnone : ∀ a ∈ pre,
        (decide (a.1 <:+: message.map Char.toLower)) = false := by
      intro a ha
      simpa using hpre a ha
    have hf : fallbackResponses.find?
        (fun kv2 => decide (kv2.1 <:+: message.map Char.toLower)) =
          some kv := by
      rw [htab, find?_append_of_none _ _ _ hnone, List.find?_cons,
        decide_eq_true hkv]
    simp [generate_fallback_response, hf]

theorem C2_fallback_keyword_table_total_witness :
    generate_fallback_response (String.toList "hello") =
      fallbackDefaultPrefix ++ String.toList "hello" ++
        fallbackDefaultSuffix :=
  C2_fallback_keyword_table_total.2.2.1 (String.toList "hello") (by decide)

/-- Thousands grouping on a reversed digit list: after each three digits,
insert a comma when more digits remain. -/
def groupThousandsRev : List Char → List Char
  | a :: b :: c :: d :: rest => a :: b :: c :: ',' :: groupThousandsRev (d :: rest)
  | l => l

/-- Python's `,` format option: group the integer digits in threes from
the right with commas. -/
def groupThousands (ds : List Char) : List Char :=
  (groupThousandsRev ds.reverse).reverse

/-- Model of `FinanceUtils.format_currency` in `src/backend/utils.py`:
`f"${amount:,.2f}"` — a dollar sign, the sign of the value, the integer
part grouped in thousands, and exactly two fraction digits; the float
format rounds to two decimals ties-to-even, modelled by `pyRoundInt` on
the cents. -/
def format_currency (amount : ℚ) : List Char :=
  let cents := pyRoundInt (100 * amount)
  let a := cents.natAbs
  let intDigits := groupThousands (Nat.toDigits 10 (a / 100))
  let fracDigits :=
    if a % 100 < 10 then '0' :: Nat.toDigits 10 (a % 100)
    else Nat.toDigits 10 (a % 100)
  (if cents < 0 then ['$', '-'] else ['$']) ++ intDigits ++ '.' :: fracDigits

/-- The reply record the `/chat` handler assembles (`response['text']`
and the metadata the claims mention; the timestamp is an external
effect and is not modelled). -/
structure ChatReply where
  text : List Char
  amounts : List ℚ
  sentiment : List Char

/-- The summary line the `/chat` handler appends when the OpenAI reply
stands and amounts were found: the separator text of the source (which
contains literal `\n` escape sequences and mojibake characters in the
f-string) followed by the amounts formatted as currency and joined with
`", "`. -/
def amountsSuffix (amounts : List ℚ) : List Char :=
  String.toList "\\n\\nüí∞ I noticed these amounts in your question: " ++
    List.intercalate (String.toList ", ") (amounts.map format_currency)

/-- Model of the synthesis path of the `/chat` handler in
`src/api_server.py` (the part after the route's empty-message guard,
which is caller-side validation).  `openai` models the advice generator:
`none` when `openai_handler and openai_handler.api_key` is falsy, `some
f` when configured, with `f message = .error e` modelling a raised
exception in `get_financial_advice` (caught by the handler, which then
falls back) and `.ok ai` a returned reply.  `google` likewise models the
sentiment signal, whose failure is caught and leaves the initialized
`"neutral"` label.  The handler extracts amounts first, then sentiment,
then the reply text: the OpenAI text plus the amount summary when
amounts were found, or the fallback response. -/
def chatCore (openai : Option (List Char → Except Unit (List Char)))
    (google : Option (List Char → Except Unit (List Char)))
    (message : List Char) : ChatReply :=
  let amounts := extract_amounts message
  let sentiment :=
    match google with
    | none => String.toList "neutral"
    | some f =>
      match f message with
      | .ok s => s
      | .error _ => String.toList "neutral"
  let text :=
    match openai with
    | none => generate_fallback_response message
    | some f =>
      match f message with
      | .error _ => generate_fallback_response message
      | .ok ai =>
        if amounts.isEmpty then ai else ai ++ amountsSuffix amounts
  ⟨text, amounts, sentiment⟩

lemma chatCore_fallback_text (message : List Char)
    (openai google : Option (List Char → Except Unit (List Char)))
    (h : openai = none ∨
      ∃ f e, openai = some f ∧ f message = Except.error e) :
    (chatCore openai google message).text =
      generate_fallback_response message := by
  rcases h with rfl | ⟨f, e, rfl, hf⟩
  · rfl
  · simp [chatCore, hf]

/-- C1: the `/chat` synthesis path is total over its optional
collaborators: for every message, when the advice generator is
unavailable or raises (and whatever the sentiment signal does — its
failure is likewise absorbed), the assembled `ChatReply` carries the
fallback advisor's text, which is never empty; no collaborator error
propagates. -/
theorem C1_synthesis_total_nonempty_fallback :
    ∀ (message : List Char)
      (openai google : Option (List Char → Except Unit (List Char))),
      (openai = none ∨
        ∃ f e, openai = some f ∧ f message = Except.error e) →
      (chatCore openai google message).text =
        generate_fallback_response message ∧
      (chatCore openai google message).text ≠ [] := by
  intro message openai google h
  refine ⟨chatCore_fallback_text message openai google h, ?_⟩
  rw [chatCore_fallback_text message openai google h]
  exact fallback_response_ne_nil message

theorem C1_synthesis_total_nonempty_fallback_witness :
    (chatCore none none (String.toList "hello")).text =
      generate_fallback_response (String.toList "hello") ∧
    (chatCore none none (String.toList "hello")).text ≠ [] :=
  C1_synthesis_total_nonempty_fallback (String.toList "hello") none none
    (Or.inl rfl)

/-- C8: the amount summary is appended iff the extracted amount list is
non-empty and the base reply came from the advice generator: with a
successful generator reply `ai` the text is `ai ++ amountsSuffix ...`
when amounts were found and exactly `ai` otherwise, while on the
fallback path the text is exactly the fallback response with no summary;
and `format_currency 1234.56 = "$1,234.56"`. -/
theorem C8_summary_iff_generator_and_amounts :
    format_currency (123456/100) = String.toList "$1,234.56" ∧
    (∀ (message ai : List Char)
      (google : Option (List Char → Except Unit (List Char)))
      (f : List Char → Except Unit (List Char)),
      f message = Except.ok ai →
      (extract_amounts message ≠ [] →
        (chatCore (some f) google message).text =
          ai ++ amountsSuffix (extract_amounts message)) ∧
      (extract_amounts message = [] →
        (chatCore (some f) google message).text = ai)) ∧
    (∀ (message : List Char)
      (openai google : Option (List Char → Except Unit (List Char))),
      (openai = none ∨
        ∃ f e, openai = some f ∧ f message = Except.error e) →
      (chatCore openai google message).text =
        generate_fallback_response message) := by
  refine ⟨?_, ?_, fun message openai google h =>
    chatCore_fallback_text message openai google h⟩
  · have h1 : pyRoundInt (100 * (123456/100 : ℚ)) = 123456 := by
      have h2 : (100 : ℚ) * (123456/100) = ((123456 : ℤ) : ℚ) := by norm_num
      rw [h2, pyRoundInt_int]
    simp only [format_currency, h1]
    decide
  · intro message ai google f hf
    constructor
    · intro hne
      rcases hA : extract_amounts message with _ | ⟨a, t⟩
      · exact absurd hA hne
      · simp [chatCore, hf, hA]
    · intro hA
      simp [chatCore, hf, hA]

theorem C8_summary_iff_generator_and_amounts_witness :
    (chatCore (some (fun _ => Except.ok (String.toList "ok"))) none
        (String.toList "$5")).text =
      String.toList "ok" ++
        amountsSuffix (extract_amounts (String.toList "$5")) :=
  (C8_summary_iff_generator_and_amounts.2.1 (String.toList "$5")
    (String.toList "ok") none (fun _ => Except.ok (String.toList "ok"))
    rfl).1 (by decide)
